import Mathlib

/-!
Verification of the Raziel chord-verifier core against its specification.

The definitions below are a shallow embedding of the detection pipeline:
the shared ring buffer (src/audio/ringBuffer.ts and the worklet writer),
the linear resampler (src/utils/resample.ts), and the chord worker
(src/workers/chordWorker.ts): its SET_EXPECTED handler, per-tick
aggregation of recent note lists, and the policy / confirmation /
miss-debounce engine in evaluateChord.

Modelling conventions: JavaScript numbers are embedded as ℚ (timestamps in
milliseconds, saliences, samples) or ℤ (MIDI numbers, which the adapter
rounds to integers before they reach the worker, so Math.round is the
identity on them); JS `%` on the non-negative operands that actually occur
is Int.emod; a JS Set of pitch classes is a Finset ℕ; a JS Map in insertion
order is an association list updated in place.  Fields of source records
that no modelled code path reads (note start/end times, the song metadata)
are omitted.
-/

namespace Raziel

/-- A pitch class 0..11.  src/types/audio.ts restricts the type to those
literals; the embedding uses ℕ, and midiToPitchClass only produces values
below 12. -/
abbrev PitchClass := ℕ

/-- src/utils/pitch.ts: `((Math.round(midi) + transpose) % 12 + 12) % 12`.
`midi` is integral here, so Math.round is the identity; the double modulo
makes the result non-negative, hence `Int.toNat` loses nothing. -/
def midiToPitchClass (midi : ℤ) (transpose : ℤ) : PitchClass :=
  (((midi + transpose).tmod 12 + 12).tmod 12).toNat

/-- src/types/audio.ts NoteEvent, restricted to the fields the worker
reads: `midi` and the optional `salience`. -/
structure NoteEvent where
  midi : ℤ
  salience : Option ℚ
deriving DecidableEq, Repr

/-- src/types/audio.ts ChordSpec (the optional `name` label is never read
by the worker and is omitted). -/
structure ChordSpec where
  pcs : List PitchClass
  K : Option ℕ
deriving DecidableEq, Repr

/-- src/types/audio.ts Policy. -/
inductive Policy where
  | K_OF_N
  | INCLUDES_TARGET
  | BASS_PRIORITY
deriving DecidableEq, Repr

/-- src/types/audio.ts ResultEvent, minus ERROR (which the worker only
posts on runtime exceptions, outside this model).  `t` carries the
source's `timestamp / 1000` seconds value. -/
inductive Verdict where
  | tick (t inferenceMs : ℚ)
  | notes (t : ℚ) (ns : List NoteEvent)
  | chordMatch (t : ℚ)
  | chordMiss (t : ℚ) (matched missing : List PitchClass)
deriving DecidableEq, Repr

/-! ## Shared ring buffer

src/audio/ringBuffer.ts (reader) and the worklet's inline SharedRingBuffer
(writer).  The writer keeps a freely incrementing write index `w` and
stores each sample at `f32[w % cap]`; the model keeps the full write
history as a list, with `w = written.length`, and recovers the cell
contents by replaying the stores over the zero-initialized buffer. -/

structure RingState where
  capacity : ℕ
  written : List ℚ
deriving Repr

/-- Worklet writer: `for i: f32[w % cap] = samples[i]; w++` followed by
publishing `w`, i.e. the history grows by `samples`. -/
def RingState.write (rb : RingState) (samples : List ℚ) : RingState :=
  { rb with written := rb.written ++ samples }

/-- Replay of the writer's stores `f32[w % cap] = x; w++` starting from
write counter `k` over buffer contents `f`. -/
def storeFoldAux (cap : ℕ) (k : ℕ) : List ℚ → (ℕ → ℚ) → (ℕ → ℚ)
  | [], f => f
  | x :: rest, f => storeFoldAux cap (k + 1) rest (fun j => if j = k % cap then x else f j)

/-- The buffer cell contents after replaying every store
`f32[k % cap] = written[k]` over a zero-initialized Float32Array. -/
def storeFold (cap : ℕ) (written : List ℚ) : ℕ → ℚ :=
  storeFoldAux cap 0 written (fun _ => 0)

/-- SharedRingBufferReader.readLatest.  The loop writes
`target[target.length - available + i] = data[(start + i + capacity) % capacity]`
for `i < available` and the trailing fill zeroes positions below
`target.length - available`; position by position that is the map below
(the two index ranges are disjoint and cover the target).  Loop indices
are carried in ℤ exactly as the source computes them; the modulus operand
`start + i + capacity` is never negative, where JS `%` agrees with
`Int.emod`. -/
def readLatest (rb : RingState) (n : ℕ) (target : List ℚ) : List ℚ :=
  let available : ℕ := min n rb.capacity
  let start : ℤ := (rb.written.length : ℤ) - (available : ℤ)
  let base : ℤ := (target.length : ℤ) - (available : ℤ)
  (List.range target.length).map fun (p : ℕ) =>
    if (p : ℤ) < base then 0
    else storeFold rb.capacity rb.written
      (((start + ((p : ℤ) - base) + (rb.capacity : ℤ)) % (rb.capacity : ℤ)).toNat)

/-! ## Resampler (src/utils/resample.ts) -/

/-- resampleMonoBuffer.  `input.slice()` is an exact copy; otherwise each
output index interpolates as in the source, with `input[idx] ?? 0` and
`input[idx + 1] ?? sample0` rendered by `List.getD`.  `Math.floor(pos)` is
an ℤ floor; for the positive rates of interest `pos ≥ 0`, so `toNat` is
faithful. -/
def resampleMonoBuffer (input : List ℚ) (inSampleRate outSampleRate : ℚ) : List ℚ :=
  if inSampleRate = outSampleRate then input
  else
    let ratio := outSampleRate / inSampleRate
    let outputLength : ℕ := (⌊(input.length : ℚ) * ratio⌋).toNat
    (List.range outputLength).map fun (i : ℕ) =>
      let pos : ℚ := (i : ℚ) / ratio
      let idx : ℕ := (⌊pos⌋).toNat
      let frac : ℚ := pos - (idx : ℚ)
      let sample0 := input.getD idx 0
      let sample1 := input.getD (idx + 1) sample0
      sample0 + (sample1 - sample0) * frac

/-! ## Chord worker (src/workers/chordWorker.ts)

Mutable worker globals become a state record; the onmessage handler and
the tick callback become a step function over incoming events.  The model
covers the worker after INIT (reader present); `isProcessing` single-flight
merely drops ticks, so a dropped tick is an event that never enters the
trace. -/

/-- The worker's mutable globals that the SET_EXPECTED handler and
evaluateChord read and write. -/
structure WorkerState where
  expected : Option ChordSpec
  policy : Policy
  framesConfirm : ℕ
  salienceThreshold : ℚ
  transposeSemitones : ℤ
  acceptInversions : Bool
  confirmCounter : ℕ
  lastMissTs : ℚ
  recentEvents : List (List NoteEvent)
deriving Repr

/-- Initial values of the globals (`expected = null`, `policy = "K_OF_N"`,
`framesConfirm = 3`, `salienceThreshold = 0.2`, `transposeSemitones = 0`,
`acceptInversions = true`, `confirmCounter = 0`, `lastMissTs = 0`,
`recentEvents = []`). -/
def initWorkerState : WorkerState :=
  { expected := none
    policy := Policy.K_OF_N
    framesConfirm := 3
    salienceThreshold := 2/10
    transposeSemitones := 0
    acceptInversions := true
    confirmCounter := 0
    lastMissTs := 0
    recentEvents := [] }

def missCooldownMs : ℚ := 250

def MAX_BUFFERED_TICKS : ℕ := 5

/-- mapCentsTolToSalience. -/
def mapCentsTolToSalience (centsTol : ℚ) : ℚ :=
  if centsTol ≤ 25 then 4/10 else if centsTol ≤ 50 then 3/10 else 2/10

/-- src/types/audio.ts WorkerSetExpected. -/
structure WorkerSetExpected where
  expected : ChordSpec
  policy : Policy
  centsTol : ℚ
  framesConfirm : ℕ
  transposeSemitones : ℤ
  acceptInversions : Bool
deriving Repr

/-- The SET_EXPECTED branch of onmessage.  `msg.payload.centsTol ? ... :`
is JS truthiness: a zero centsTol keeps the previous threshold. -/
def handleSetExpected (st : WorkerState) (p : WorkerSetExpected) : WorkerState :=
  { st with
    expected := some p.expected
    policy := p.policy
    framesConfirm := p.framesConfirm
    transposeSemitones := p.transposeSemitones
    acceptInversions := p.acceptInversions
    salienceThreshold :=
      if p.centsTol ≠ 0 then mapCentsTolToSalience p.centsTol else st.salienceThreshold
    confirmCounter := 0 }

/-- The result of evaluateChord's notes.forEach loop: the Set of pitch
classes and the pitch class of the lowest MIDI note, tracked together with
that lowest MIDI value (`lowestMidi` starts at Infinity, modelled by the
`none` case). -/
structure NoteScan where
  pcs : Finset PitchClass
  lowest : Option (ℤ × PitchClass)

/-- One iteration of the forEach: skip when salience is non-null and below
the threshold; otherwise insert the pitch class and update the strict
minimum. -/
def scanStep (threshold : ℚ) (transpose : ℤ) (acc : NoteScan) (note : NoteEvent) : NoteScan :=
  match note.salience with
  | some s =>
      if s < threshold then acc else
        { pcs := insert (midiToPitchClass note.midi transpose) acc.pcs
          lowest :=
            match acc.lowest with
            | none => some (note.midi, midiToPitchClass note.midi transpose)
            | some (m, pc) =>
                if note.midi < m then some (note.midi, midiToPitchClass note.midi transpose)
                else some (m, pc) }
  | none =>
      { pcs := insert (midiToPitchClass note.midi transpose) acc.pcs
        lowest :=
          match acc.lowest with
          | none => some (note.midi, midiToPitchClass note.midi transpose)
          | some (m, pc) =>
              if note.midi < m then some (note.midi, midiToPitchClass note.midi transpose)
              else some (m, pc) }

def noteScan (threshold : ℚ) (transpose : ℤ) (notes : List NoteEvent) : NoteScan :=
  notes.foldl (scanStep threshold transpose) ⟨∅, none⟩

/-- `const matched = expected.pcs.filter((pc) => pcsInWindow.has(pc))`. -/
def matchedOf (spec : ChordSpec) (window : Finset PitchClass) : List PitchClass :=
  spec.pcs.filter fun pc => decide (pc ∈ window)

/-- `const missing = expected.pcs.filter((pc) => !pcsInWindow.has(pc))`. -/
def missingOf (spec : ChordSpec) (window : Finset PitchClass) : List PitchClass :=
  spec.pcs.filter fun pc => !decide (pc ∈ window)

/-- `const required = expected.K ?? Math.min(2, expected.pcs.length)`. -/
def requiredK (spec : ChordSpec) : ℕ :=
  spec.K.getD (min 2 spec.pcs.length)

/-- The `switch (policy)` computing passesPolicy.  `expected.pcs[0]` on an
empty list is undefined, which no Set contains and no number equals, hence
the `head?` matches.  In BASS_PRIORITY the source tests `!!lowestPc`: JS
truthiness, false both for null and for the pitch class 0. -/
def policyPasses (policy : Policy) (spec : ChordSpec) (scan : NoteScan)
    (matched : List PitchClass) : Bool :=
  match policy with
  | Policy.K_OF_N => requiredK spec ≤ matched.length
  | Policy.INCLUDES_TARGET =>
      match spec.pcs.head? with
      | none => false
      | some p0 => decide (p0 ∈ scan.pcs)
  | Policy.BASS_PRIORITY =>
      (requiredK spec ≤ matched.length : Bool) &&
        (match scan.lowest with
         | none => false
         | some (_, pc) => (pc != 0) && (spec.pcs.head? == some pc))

/-- `if (!acceptInversions && lowestPc !== null) passesPolicy &&= lowestPc === pcs[0]`. -/
def applyInversionGate (acceptInversions : Bool) (spec : ChordSpec) (scan : NoteScan)
    (p : Bool) : Bool :=
  match scan.lowest with
  | none => p
  | some (_, pc) =>
      if acceptInversions then p else p && (spec.pcs.head? == some pc)

/-- What one evaluateChord call produced: the updated globals, the posted
verdicts, and the two values taken by the mutable `passesPolicy` (after
the policy switch, and after the inversion gate); `none` when `expected`
was unset and the function returned at once. -/
structure EvalOut where
  st : WorkerState
  emits : List Verdict
  policyPass : Option Bool
  pass : Option Bool

/-- evaluateChord(notes, timestamp). -/
def evaluateChord (st : WorkerState) (notes : List NoteEvent) (timestamp : ℚ) : EvalOut :=
  match st.expected with
  | none => ⟨st, [], none, none⟩
  | some spec =>
      let scan := noteScan st.salienceThreshold st.transposeSemitones notes
      let matched := matchedOf spec scan.pcs
      let missing := missingOf spec scan.pcs
      let p0 := policyPasses st.policy spec scan matched
      let p := applyInversionGate st.acceptInversions spec scan p0
      if p then
        if st.framesConfirm ≤ st.confirmCounter + 1 then
          ⟨{ st with confirmCounter := 0 },
            [Verdict.chordMatch (timestamp / 1000)], some p0, some p⟩
        else
          ⟨{ st with confirmCounter := st.confirmCounter + 1 }, [], some p0, some p⟩
      else
        if missCooldownMs < timestamp - st.lastMissTs then
          ⟨{ st with confirmCounter := 0, lastMissTs := timestamp },
            [Verdict.chordMiss (timestamp / 1000) matched missing], some p0, some p⟩
        else
          ⟨{ st with confirmCounter := 0 }, [], some p0, some p⟩

/-- aggregateRecentNotes' Map update: `entry = map.get(key) ?? fresh;
entry.salience += note.salience ?? 0.5; entry.count += 1` — in-place update
of an insertion-ordered map, new keys appended at the end. -/
def aggUpdate : List (ℤ × ℚ × ℕ) → ℤ → ℚ → List (ℤ × ℚ × ℕ)
  | [], key, s => [(key, s, 1)]
  | (k, acc, c) :: rest, key, s =>
      if key = k then (k, acc + s, c + 1) :: rest
      else (k, acc, c) :: aggUpdate rest key s

/-- aggregateRecentNotes.  `Math.round(note.midi)` is the identity on the
integral MIDI numbers in the model. -/
def aggregateRecentNotes (buffer : List (List NoteEvent)) : List NoteEvent :=
  let m := buffer.foldl
    (fun m bucket =>
      bucket.foldl (fun m note => aggUpdate m note.midi (note.salience.getD (1/2))) m)
    []
  m.map fun kv => { midi := kv.1, salience := some (kv.2.1 / (kv.2.2 : ℚ)) }

/-- processTick, minus the early return when a previous pass is in flight
(a dropped tick is simply absent from the trace).  `t1` is the
`performance.now()` stored in `now`, `t2` the reading used for
`inferenceMs`, `t3` the reading stamped on the TICK verdict. -/
def processTick (st : WorkerState) (notes : List NoteEvent) (t1 t2 t3 : ℚ) :
    WorkerState × List Verdict × Option Bool × Option Bool :=
  match st.expected with
  | none => (st, [], none, none)
  | some _ =>
      let recent0 := st.recentEvents ++ [notes]
      let recent := if MAX_BUFFERED_TICKS < recent0.length then recent0.tail else recent0
      let blended := aggregateRecentNotes recent
      let out := evaluateChord { st with recentEvents := recent } blended t1
      (out.st,
        Verdict.notes (t1 / 1000) notes :: out.emits ++ [Verdict.tick (t3 / 1000) (t2 - t1)],
        out.pass, out.policyPass)

/-- An input to the post-INIT worker: a SET_EXPECTED message, or a firing
of the tick interval (with the notes the adapter returned for the current
window and the three wall-clock readings the handler takes). -/
inductive WorkerEvent where
  | setExpected (p : WorkerSetExpected)
  | tick (notes : List NoteEvent) (t1 t2 t3 : ℚ)

/-- The `now` reading of a tick (setExpected events read no clock). -/
def WorkerEvent.ts : WorkerEvent → ℚ
  | .setExpected _ => 0
  | .tick _ t1 _ _ => t1

def WorkerEvent.isSetExpected : WorkerEvent → Bool
  | .setExpected _ => true
  | .tick _ _ _ _ => false

/-- The observation of one processed event: the event, the worker state
when it arrived, the verdicts posted while handling it, and the
passesPolicy outcome of its evaluateChord call (none for SET_EXPECTED and
for ticks with no expected chord). -/
structure StepRecord where
  event : WorkerEvent
  stPre : WorkerState
  emits : List Verdict
  pass : Option Bool

instance : Inhabited StepRecord :=
  ⟨⟨WorkerEvent.tick [] 0 0 0, initWorkerState, [], none⟩⟩

/-- One step of the worker: dispatch on the message / timer event. -/
def stepWorker (st : WorkerState) : WorkerEvent → WorkerState × StepRecord
  | .setExpected p => (handleSetExpected st p, ⟨.setExpected p, st, [], none⟩)
  | .tick notes t1 t2 t3 =>
      let out := processTick st notes t1 t2 t3
      (out.1, ⟨.tick notes t1 t2 t3, st, out.2.1, out.2.2.1⟩)

/-- A session: the records of processing a list of events in order. -/
def runWorker (st : WorkerState) : List WorkerEvent → List StepRecord
  | [] => []
  | e :: es =>
      let out := stepWorker st e
      out.2 :: runWorker out.1 es

/-- Did a list of posted verdicts include a CHORD_MATCH? -/
def emitsMatch (vs : List Verdict) : Bool :=
  vs.any fun v => match v with | Verdict.chordMatch _ => true | _ => false

/-- Did a list of posted verdicts include a CHORD_MISS? -/
def emitsMiss (vs : List Verdict) : Bool :=
  vs.any fun v => match v with | Verdict.chordMiss _ _ _ => true | _ => false

/-- A SET_EXPECTED payload carries a positive framesConfirm (the spec
constrains the option to its default 3 or another positive count). -/
def eventFcOk : WorkerEvent → Bool
  | .setExpected p => 1 ≤ p.framesConfirm
  | .tick _ _ _ _ => true

/-- The length of the run of consecutive policy-passing ticks ending at
the current record, counted since the most recent SET_EXPECTED or
non-passing tick (a tick evaluated without an expected chord leaves the
count where it was, exactly as it leaves the worker's counter). -/
def streakStep (s : ℕ) (r : StepRecord) : ℕ :=
  match r.event with
  | .setExpected _ => 0
  | .tick _ _ _ _ =>
      match r.pass with
      | some true => s + 1
      | some false => 0
      | none => s

/-- The streak value at each position of a session. -/
def streaks (st : WorkerState) (s : ℕ) : List WorkerEvent → List ℕ
  | [] => []
  | e :: es =>
      let out := stepWorker st e
      let s2 := streakStep s out.2
      s2 :: streaks out.1 s2 es

/-! ### Concrete test fixtures -/

/-- Worker state expecting the E-minor pitch classes `{4, 7, 11}` with
`K = 3`. -/
def emTestState : WorkerState :=
  { initWorkerState with expected := some ⟨[4, 7, 11], some 3⟩ }

/-- E3 and G3 only (the B is missing). -/
def emTestNotes : List NoteEvent := [⟨52, none⟩, ⟨55, none⟩]

/-- Worker state expecting C major rooted at pitch class 0 under
BASS_PRIORITY. -/
def bassTestState : WorkerState :=
  { initWorkerState with
    expected := some ⟨[0, 4, 7], some 2⟩
    policy := Policy.BASS_PRIORITY }

/-- A full C major voicing with the C in the bass (C2 = MIDI 36). -/
def bassTestNotes : List NoteEvent := [⟨36, none⟩, ⟨52, none⟩, ⟨55, none⟩]

/-- A well-formed SET_EXPECTED payload: single pitch class 0, `K = 1`,
framesConfirm 3. -/
def passPayload : WorkerSetExpected :=
  { expected := ⟨[0], some 1⟩
    policy := Policy.K_OF_N
    centsTol := 0
    framesConfirm := 3
    transposeSemitones := 0
    acceptInversions := true }

/-- An invalid SET_EXPECTED payload: empty pcs and `K = 5 > 0 = |pcs|`. -/
def badPayload : WorkerSetExpected :=
  { expected := ⟨[], some 5⟩
    policy := Policy.K_OF_N
    centsTol := 0
    framesConfirm := 3
    transposeSemitones := 0
    acceptInversions := true }

/-- A state mid-confirmation (counter at 2). -/
def confirmState : WorkerState :=
  { initWorkerState with
    expected := some ⟨[0, 4, 7], some 2⟩
    confirmCounter := 2 }

/-- A note whose pitch class is 0 (middle C). -/
def passNote : NoteEvent := ⟨60, none⟩

/-- A session of four consecutive passing ticks after one SET_EXPECTED
with framesConfirm 3. -/
def c1Trace : List WorkerEvent :=
  [WorkerEvent.setExpected passPayload,
   WorkerEvent.tick [passNote] 0 0 0,
   WorkerEvent.tick [passNote] 40 40 40,
   WorkerEvent.tick [passNote] 80 80 80,
   WorkerEvent.tick [passNote] 120 120 120]

/-- A session with silent ticks at 300, 400 and 600 ms: misses at 300 and
600, debounced at 400. -/
def c2Trace : List WorkerEvent :=
  [WorkerEvent.setExpected passPayload,
   WorkerEvent.tick [] 300 300 300,
   WorkerEvent.tick [] 400 400 400,
   WorkerEvent.tick [] 600 600 600]

/-- Two ticks with no SET_EXPECTED ever received. -/
def c9Trace : List WorkerEvent :=
  [WorkerEvent.tick [] 0 0 0, WorkerEvent.tick [] 40 40 40]

/-- A silent (non-passing) tick 100 ms after the time origin. -/
def c10Trace : List WorkerEvent :=
  [WorkerEvent.setExpected passPayload, WorkerEvent.tick [] 100 100 100]

/-! ## Theorems: shared ring buffer -/

theorem storeFoldAux_append (cap k : ℕ) (xs ys : List ℚ) (f : ℕ → ℚ) :
    storeFoldAux cap k (xs ++ ys) f =
      storeFoldAux cap (k + xs.length) ys (storeFoldAux cap k xs f) := by
  induction xs generalizing k f with
  | nil => simp [storeFoldAux]
  | cons x rest ih =>
      simp only [List.cons_append, storeFoldAux, List.length_cons, List.append_eq]
      rw [ih, show k + 1 + rest.length = k + (rest.length + 1) by omega]

theorem storeFold_concat (cap : ℕ) (ws : List ℚ) (x : ℚ) (j : ℕ) :
    storeFold cap (ws ++ [x]) j =
      if j = ws.length % cap then x else storeFold cap ws j := by
  rw [storeFold, storeFoldAux_append]
  simp [storeFoldAux, storeFold]

/-- A cell that no store ever hit still holds the initial zero. -/
theorem storeFold_unwritten (cap : ℕ) (w : List ℚ) (j : ℕ)
    (hj : ∀ k, k < w.length → k % cap ≠ j) : storeFold cap w j = 0 := by
  induction w using List.reverseRecOn with
  | nil => rfl
  | append_singleton ws x ih =>
      rw [storeFold_concat]
      rw [if_neg (by
        intro h
        exact hj ws.length (by simp) h.symm)]
      exact ih fun k hk => hj k (by simp; omega)

/-- The cell `k % cap` holds `w[k]` whenever `k` is the most recent write
to that cell, i.e. `w.length ≤ k + cap`. -/
theorem storeFold_last (cap : ℕ) (w : List ℚ) (k : ℕ)
    (hk : k < w.length) (hlast : w.length ≤ k + cap) :
    storeFold cap w (k % cap) = w.getD k 0 := by
  induction w using List.reverseRecOn generalizing k with
  | nil => simp at hk
  | append_singleton ws x ih =>
      rw [storeFold_concat]
      rcases Nat.lt_or_ge k ws.length with hlt | hge
      · have hne : k % cap ≠ ws.length % cap := by
          intro hmod
          have hdvd : cap ∣ ws.length - k := (Nat.modEq_iff_dvd' (le_of_lt hlt)).mp hmod
          have h1 : 0 < ws.length - k := by omega
          have h2 : ws.length - k < cap := by simp at hlast; omega
          exact absurd (Nat.le_of_dvd h1 hdvd) (by omega)
        rw [if_neg hne]
        rw [ih k hlt (by simp at hlast; omega)]
        rw [List.getD_eq_getElem _ _ hlt,
          List.getD_eq_getElem _ _ (by simp; omega), List.getElem_append_left hlt]
      · have hke : k = ws.length := by simp at hk; omega
        subst hke
        rw [if_pos rfl, List.getD_eq_getElem _ _ (by simp)]
        simp

/-- C6.  For a ring buffer of positive capacity and a target of length
`n`, `readLatest(n, out)` yields the last `m = min n (min capacity
totalWritten)` samples ever written, right-aligned (most recent at
`out[n-1]`), preceded by `n - m` zeros: requests larger than the capacity
are clamped, a shorter write history shows as leading zeros, and `n = 0`
writes nothing. -/
theorem readLatest_spec (rb : RingState) (n : ℕ) (target : List ℚ)
    (hcap : 0 < rb.capacity) (hlen : target.length = n) :
    readLatest rb n target =
      List.replicate (n - min n (min rb.capacity rb.written.length)) 0 ++
        rb.written.drop (rb.written.length - min n (min rb.capacity rb.written.length)) := by
  set cap := rb.capacity with hc
  set w := rb.written with hw
  set L := w.length with hL
  set a := min n cap with ha
  set m := min n (min cap L) with hm
  have hma : m = min a L := by omega
  have hlenL : (readLatest rb n target).length = n := by
    simp [readLatest, hlen]
  have hlenR : (List.replicate (n - m) (0 : ℚ) ++ w.drop (L - m)).length = n := by
    simp [List.length_replicate, List.length_drop]
    omega
  apply List.ext_getElem (by rw [hlenL, hlenR])
  intro p hp hp2
  have hpn : p < n := by rwa [hlenL] at hp
  -- left side: unfold the map over the range
  have hleft : (readLatest rb n target)[p] =
      (if (p : ℤ) < (n : ℤ) - (a : ℤ) then 0
       else storeFold cap w
        ((((L : ℤ) - (a : ℤ) + ((p : ℤ) - ((n : ℤ) - (a : ℤ))) + (cap : ℤ)) %
          (cap : ℤ)).toNat)) := by
    simp only [readLatest, hlen]
    rw [List.getElem_map, List.getElem_range]
  rw [hleft]
  by_cases hfill : (p : ℤ) < (n : ℤ) - (a : ℤ)
  · -- the trailing fill: position below n - available
    rw [if_pos hfill]
    have hpm : p < n - m := by omega
    rw [List.getElem_append_left (by simp [List.length_replicate]; omega)]
    simp
  · rw [if_neg hfill]
    have harg : (L : ℤ) - (a : ℤ) + ((p : ℤ) - ((n : ℤ) - (a : ℤ))) + (cap : ℤ) =
        (L : ℤ) + (p : ℤ) - (n : ℤ) + (cap : ℤ) := by ring
    rw [harg]
    by_cases hwr : (L : ℤ) + (p : ℤ) - (n : ℤ) < 0
    · -- reading a cell that was never written: zero-initialized
      have hA0 : 0 ≤ (L : ℤ) + (p : ℤ) - (n : ℤ) + (cap : ℤ) := by omega
      have hAcap : (L : ℤ) + (p : ℤ) - (n : ℤ) + (cap : ℤ) < (cap : ℤ) := by omega
      rw [Int.emod_eq_of_lt hA0 hAcap]
      have hidxL : (L : ℤ) ≤ (L : ℤ) + (p : ℤ) - (n : ℤ) + (cap : ℤ) := by omega
      rw [storeFold_unwritten cap w _ ?_]
      · have hpm : p < n - m := by omega
        rw [List.getElem_append_left (by simp [List.length_replicate]; omega)]
        simp
      · intro k hk hkmod
        have hkcap : k < cap := by omega
        rw [Nat.mod_eq_of_lt hkcap] at hkmod
        omega
    · -- reading the k-th sample ever written, k = L + p - n
      have hk0 : 0 ≤ (L : ℤ) + (p : ℤ) - (n : ℤ) := by omega
      have hkdef : ((L + p - n : ℕ) : ℤ) = (L : ℤ) + (p : ℤ) - (n : ℤ) := by omega
      set k : ℕ := L + p - n with hkk
      have hMod : ((L : ℤ) + (p : ℤ) - (n : ℤ) + (cap : ℤ)) % (cap : ℤ) =
          ((k % cap : ℕ) : ℤ) := by
        rw [Int.add_emod_self, ← hkdef]
        rfl
      rw [hMod]
      have hkL : k < L := by omega
      have hklast : L ≤ k + cap := by omega
      rw [Int.toNat_ofNat, storeFold_last cap w k hkL hklast]
      have hpm : n - m ≤ p := by omega
      rw [List.getElem_append_right (by simp [List.length_replicate]; omega)]
      rw [List.getElem_drop]
      rw [List.getD_eq_getElem _ _ hkL]
      congr 1
      simp [List.length_replicate]
      omega

/-- Witness for C6 at a concrete input: capacity 3, five samples written,
a request of 4 on a 4-slot target (clamped to 3, one leading zero). -/
theorem readLatest_spec_witness :
    readLatest ⟨3, [10, 20, 30, 40, 50]⟩ 4 [0, 0, 0, 0] =
      List.replicate (4 - min 4 (min 3 ([10, 20, 30, 40, 50] : List ℚ).length)) 0 ++
        ([10, 20, 30, 40, 50] : List ℚ).drop
          (([10, 20, 30, 40, 50] : List ℚ).length -
            min 4 (min 3 ([10, 20, 30, 40, 50] : List ℚ).length)) :=
  readLatest_spec ⟨3, [10, 20, 30, 40, 50]⟩ 4 [0, 0, 0, 0] (by norm_num) (by norm_num)

/-! ## Theorems: resampler -/

/-- C7.  For positive rates the resampler is an exact copy at equal rates;
otherwise every output sample is the linear interpolation
`in[idx] + (in[idx+1] - in[idx]) * frac` of the spec, with
`pos = i * inRate / outRate`, `idx = ⌊pos⌋` always a valid input index,
`frac = pos - idx`, and the access to `in[idx+1]` clamped to `in[idx]` at
the upper boundary. -/
theorem resample_spec (input : List ℚ) (inRate outRate : ℚ)
    (hin : 0 < inRate) (hout : 0 < outRate) :
    (inRate = outRate → resampleMonoBuffer input inRate outRate = input) ∧
    (inRate ≠ outRate →
      ∀ i, i < (resampleMonoBuffer input inRate outRate).length →
        (⌊(i : ℚ) * inRate / outRate⌋).toNat < input.length ∧
        (resampleMonoBuffer input inRate outRate).getD i 0 =
          (let pos : ℚ := (i : ℚ) * inRate / outRate
           let idx : ℕ := (⌊pos⌋).toNat
           let frac : ℚ := pos - (idx : ℚ)
           let s0 := input.getD idx 0
           let s1 := if idx + 1 < input.length then input.getD (idx + 1) 0 else s0
           s0 + (s1 - s0) * frac)) := by
  constructor
  · intro h
    simp [resampleMonoBuffer, h]
  · intro hne i hi
    simp only [resampleMonoBuffer] at hi ⊢
    rw [if_neg hne] at hi ⊢
    simp only [List.length_map, List.length_range] at hi
    set ratio : ℚ := outRate / inRate with hratio
    have hr : 0 < ratio := div_pos hout hin
    -- the position computed by the source equals the spec's position
    have hpos : (i : ℚ) / ratio = (i : ℚ) * inRate / outRate := by
      rw [hratio, div_div_eq_mul_div]
    -- i < ⌊len * ratio⌋.toNat gives pos < len
    have hfloor : ((i : ℤ) + 1) ≤ ⌊(input.length : ℚ) * ratio⌋ := by omega
    have hpos_lt : (i : ℚ) / ratio < (input.length : ℚ) := by
      rw [div_lt_iff₀ hr]
      have h1 : ((i : ℚ) + 1) ≤ (input.length : ℚ) * ratio := by
        calc ((i : ℚ) + 1) = (((i : ℤ) + 1 : ℤ) : ℚ) := by push_cast; ring
          _ ≤ (⌊(input.length : ℚ) * ratio⌋ : ℚ) := by exact_mod_cast hfloor
          _ ≤ (input.length : ℚ) * ratio := Int.floor_le _
      linarith [h1]
    have hpos_nonneg : 0 ≤ (i : ℚ) / ratio := by positivity
    have hfl_nonneg : 0 ≤ ⌊(i : ℚ) / ratio⌋ := Int.floor_nonneg.mpr hpos_nonneg
    have hidx_lt : (⌊(i : ℚ) / ratio⌋).toNat < input.length := by
      have h2 : ⌊(i : ℚ) / ratio⌋ < (input.length : ℤ) :=
        Int.floor_lt.mpr (by exact_mod_cast hpos_lt)
      omega
    constructor
    · rw [← hpos]; exact hidx_lt
    · rw [List.getD_eq_getElem _ _ (by simpa using hi)]
      simp only [List.getElem_map, List.getElem_range]
      rw [← hpos]
      by_cases hnext : (⌊(i : ℚ) / ratio⌋).toNat + 1 < input.length
      · rw [if_pos hnext]
        rw [List.getD_eq_getElem _ _ hnext, List.getD_eq_getElem _ 0 hnext]
      · rw [if_neg hnext]
        have hs1 : input.getD ((⌊(i : ℚ) / ratio⌋).toNat + 1)
            (input.getD ((⌊(i : ℚ) / ratio⌋).toNat) 0) =
            input.getD ((⌊(i : ℚ) / ratio⌋).toNat) 0 :=
          List.getD_eq_default _ _ (by omega)
        rw [hs1]

/-- Witness for C7 at a concrete input: input `[1, 3]` resampled from
rate 2 to rate 1. -/
theorem resample_spec_witness :
    (((2 : ℚ) = 1 → resampleMonoBuffer [1, 3] 2 1 = [1, 3]) ∧
      ((2 : ℚ) ≠ 1 →
        ∀ i, i < (resampleMonoBuffer [1, 3] 2 1).length →
          (⌊(i : ℚ) * 2 / 1⌋).toNat < ([1, 3] : List ℚ).length ∧
          (resampleMonoBuffer [1, 3] 2 1).getD i 0 =
            (let pos : ℚ := (i : ℚ) * 2 / 1
             let idx : ℕ := (⌊pos⌋).toNat
             let frac : ℚ := pos - (idx : ℚ)
             let s0 := ([1, 3] : List ℚ).getD idx 0
             let s1 := if idx + 1 < ([1, 3] : List ℚ).length
               then ([1, 3] : List ℚ).getD (idx + 1) 0 else s0
             s0 + (s1 - s0) * frac))) :=
  resample_spec [1, 3] 2 1 (by norm_num) (by norm_num)

/-! ## Theorems: the policy engine on a single tick -/

/-- The value of the mutable `passesPolicy` right after the policy switch,
whatever branch evaluateChord then takes. -/
theorem evaluateChord_policyPass (st : WorkerState) (notes : List NoteEvent) (t : ℚ)
    (spec : ChordSpec) (hexp : st.expected = some spec) :
    (evaluateChord st notes t).policyPass =
      some (policyPasses st.policy spec
        (noteScan st.salienceThreshold st.transposeSemitones notes)
        (matchedOf spec (noteScan st.salienceThreshold st.transposeSemitones notes).pcs)) := by
  simp only [evaluateChord, hexp]
  split <;> split <;> rfl

/-- The value of `passesPolicy` after the inversion gate, i.e. the final
pass/fail of the tick. -/
theorem evaluateChord_pass (st : WorkerState) (notes : List NoteEvent) (t : ℚ)
    (spec : ChordSpec) (hexp : st.expected = some spec) :
    (evaluateChord st notes t).pass =
      some (applyInversionGate st.acceptInversions spec
        (noteScan st.salienceThreshold st.transposeSemitones notes)
        (policyPasses st.policy spec
          (noteScan st.salienceThreshold st.transposeSemitones notes)
          (matchedOf spec (noteScan st.salienceThreshold st.transposeSemitones notes).pcs))) := by
  simp only [evaluateChord, hexp]
  split <;> split <;> rfl

/-- A CHORD_MISS posted by evaluateChord carries exactly the lists
`matched` and `missing` computed from the current spec and window. -/
theorem evaluateChord_miss_emits (st : WorkerState) (notes : List NoteEvent) (ts : ℚ)
    (spec : ChordSpec) (t : ℚ) (m mi : List PitchClass)
    (hexp : st.expected = some spec)
    (hmem : Verdict.chordMiss t m mi ∈ (evaluateChord st notes ts).emits) :
    m = matchedOf spec (noteScan st.salienceThreshold st.transposeSemitones notes).pcs ∧
    mi = missingOf spec (noteScan st.salienceThreshold st.transposeSemitones notes).pcs := by
  simp only [evaluateChord, hexp] at hmem
  split at hmem <;> split at hmem <;> simp at hmem
  exact ⟨hmem.2.1, hmem.2.2⟩

/-- With duplicate-free pcs, the length of `matched` counts the expected
pitch classes present in the window. -/
theorem matchedOf_length (spec : ChordSpec) (w : Finset PitchClass)
    (hnd : spec.pcs.Nodup) :
    (matchedOf spec w).length = (spec.pcs.toFinset ∩ w).card := by
  rw [matchedOf, ← List.toFinset_card_of_nodup (hnd.filter _), List.toFinset_filter]
  simp only [decide_eq_true_eq]
  rw [Finset.filter_mem_eq_inter]

/-- C3.  Every CHORD_MISS verdict partitions the expected pitch classes:
`matched` is exactly `spec.pcs ∩ pcSet`, `missing` exactly
`spec.pcs \ pcSet`, so their union is `spec.pcs` and their intersection is
empty. -/
theorem miss_partition (st : WorkerState) (notes : List NoteEvent) (ts : ℚ)
    (spec : ChordSpec) (t : ℚ) (m mi : List PitchClass)
    (hexp : st.expected = some spec) (hnd : spec.pcs.Nodup)
    (hmem : Verdict.chordMiss t m mi ∈ (evaluateChord st notes ts).emits) :
    m.toFinset = spec.pcs.toFinset ∩
        (noteScan st.salienceThreshold st.transposeSemitones notes).pcs ∧
    mi.toFinset = spec.pcs.toFinset \
        (noteScan st.salienceThreshold st.transposeSemitones notes).pcs ∧
    m.toFinset ∪ mi.toFinset = spec.pcs.toFinset ∧
    m.toFinset ∩ mi.toFinset = ∅ := by
  obtain ⟨hm, hmi⟩ := evaluateChord_miss_emits st notes ts spec t m mi hexp hmem
  subst hm hmi
  set w := (noteScan st.salienceThreshold st.transposeSemitones notes).pcs with hwdef
  have h1 : (matchedOf spec w).toFinset = spec.pcs.toFinset ∩ w := by
    rw [matchedOf, List.toFinset_filter]
    simp only [decide_eq_true_eq]
    rw [Finset.filter_mem_eq_inter]
  have h2 : (missingOf spec w).toFinset = spec.pcs.toFinset \ w := by
    rw [missingOf, List.toFinset_filter]
    simp only [Bool.not_eq_true', decide_eq_false_iff_not]
    rw [← Finset.sdiff_eq_filter]
  refine ⟨h1, h2, ?_, ?_⟩
  · rw [h1, h2]
    ext x
    simp only [Finset.mem_union, Finset.mem_inter, Finset.mem_sdiff]
    tauto
  · rw [h1, h2]
    ext x
    simp only [Finset.mem_inter, Finset.mem_sdiff, Finset.not_mem_empty]
    tauto

/-- Witness for C3: E-minor spec `{4, 7, 11}` (`K = 3`) against a window
containing only E3 and G3; the miss at 1000 ms reports
`matched = {4, 7}`, `missing = {11}`, partitioning the spec. -/
theorem miss_partition_witness :
    ([4, 7] : List PitchClass).toFinset = ([4, 7, 11] : List PitchClass).toFinset ∩
        (noteScan emTestState.salienceThreshold emTestState.transposeSemitones
          emTestNotes).pcs ∧
    ([11] : List PitchClass).toFinset = ([4, 7, 11] : List PitchClass).toFinset \
        (noteScan emTestState.salienceThreshold emTestState.transposeSemitones
          emTestNotes).pcs ∧
    ([4, 7] : List PitchClass).toFinset ∪ ([11] : List PitchClass).toFinset =
        ([4, 7, 11] : List PitchClass).toFinset ∧
    ([4, 7] : List PitchClass).toFinset ∩ ([11] : List PitchClass).toFinset = ∅ := by
  have hemits : (evaluateChord emTestState emTestNotes 1000).emits =
      [Verdict.chordMiss 1 [4, 7] [11]] := by
    have h52 : midiToPitchClass 52 0 = 4 := by decide
    have h55 : midiToPitchClass 55 0 = 7 := by decide
    norm_num [evaluateChord, emTestState, emTestNotes, noteScan, scanStep, h52, h55,
      matchedOf, missingOf, policyPasses, requiredK, applyInversionGate, missCooldownMs,
      initWorkerState]
  exact miss_partition emTestState emTestNotes 1000 ⟨[4, 7, 11], some 3⟩ 1 [4, 7] [11]
    rfl (by decide) (by rw [hemits]; exact List.mem_singleton.mpr rfl)

/-- C4.  Under K_OF_N the policy switch passes iff at least `required`
expected pitch classes are in the window, where `required` is the spec's
`K` if present and `min 2 |pcs|` otherwise. -/
theorem k_of_n_pass_iff (st : WorkerState) (notes : List NoteEvent) (t : ℚ)
    (spec : ChordSpec) (hexp : st.expected = some spec)
    (hpol : st.policy = Policy.K_OF_N) (hnd : spec.pcs.Nodup) :
    ((evaluateChord st notes t).policyPass = some true ↔
      requiredK spec ≤ (spec.pcs.toFinset ∩
        (noteScan st.salienceThreshold st.transposeSemitones notes).pcs).card) := by
  rw [evaluateChord_policyPass st notes t spec hexp, hpol]
  simp only [policyPasses, Option.some_inj]
  rw [← matchedOf_length spec _ hnd]
  simp

/-- Witness for C4: C-major spec `{0, 4, 7}` with `K = 2` against a window
containing C and E only: 2 of 3 pitch classes present, so the policy
check passes. -/
theorem k_of_n_pass_iff_witness :
    ((evaluateChord
        { initWorkerState with expected := some ⟨[0, 4, 7], some 2⟩ }
        [⟨60, none⟩, ⟨64, none⟩] 1000).policyPass = some true ↔
      requiredK ⟨[0, 4, 7], some 2⟩ ≤ ((([0, 4, 7] : List PitchClass)).toFinset ∩
        (noteScan
          ({ initWorkerState with expected := some ⟨[0, 4, 7], some 2⟩ } :
            WorkerState).salienceThreshold
          ({ initWorkerState with expected := some ⟨[0, 4, 7], some 2⟩ } :
            WorkerState).transposeSemitones
          [⟨60, none⟩, ⟨64, none⟩]).pcs).card) :=
  k_of_n_pass_iff _ _ 1000 ⟨[0, 4, 7], some 2⟩ rfl rfl (by decide)

/-- C5 (code bug).  Under BASS_PRIORITY with a full C major voicing whose
bass IS the root C (pitch class 0), the K_OF_N count passes (3 ≥ 2) and
the lowest pitch class equals `pcs[0] = 0`, yet the tick FAILS and a miss
is posted: the source's `!!lowestPc` truthiness test rejects the pitch
class 0 outright (the adjacent inversion gate uses the correct
`lowestPc !== null` comparison). -/
theorem bass_priority_pc_zero_bug :
    (evaluateChord bassTestState bassTestNotes 1000).pass = some false ∧
    (noteScan bassTestState.salienceThreshold bassTestState.transposeSemitones
      bassTestNotes).lowest = some (36, 0) ∧
    (⟨[0, 4, 7], some 2⟩ : ChordSpec).pcs.head? = some 0 ∧
    requiredK ⟨[0, 4, 7], some 2⟩ ≤
      (matchedOf ⟨[0, 4, 7], some 2⟩
        (noteScan bassTestState.salienceThreshold bassTestState.transposeSemitones
          bassTestNotes).pcs).length ∧
    emitsMiss (evaluateChord bassTestState bassTestNotes 1000).emits = true := by
  have h36 : midiToPitchClass 36 0 = 0 := by decide
  have h52 : midiToPitchClass 52 0 = 4 := by decide
  have h55 : midiToPitchClass 55 0 = 7 := by decide
  have hemits : (evaluateChord bassTestState bassTestNotes 1000).emits =
      [Verdict.chordMiss 1 [0, 4, 7] []] := by
    norm_num [evaluateChord, bassTestState, bassTestNotes, noteScan, scanStep,
      h36, h52, h55, matchedOf, missingOf, policyPasses, requiredK,
      applyInversionGate, missCooldownMs, initWorkerState]
  refine ⟨?_, by decide, rfl, by decide, by rw [hemits]; rfl⟩
  rw [evaluateChord_pass bassTestState bassTestNotes 1000 ⟨[0, 4, 7], some 2⟩ rfl]
  decide

/-! ## Theorems: SET_EXPECTED handling -/

/-- C8 (amended).  The SET_EXPECTED handler performs no validation: a
payload with empty pcs, or with `K` exceeding `|pcs|`, is accepted like
any other — the expected chord is replaced, the confirmation counter is
reset, and nothing is rejected or emitted. -/
theorem set_expected_no_validation (st : WorkerState) (p : WorkerSetExpected)
    (hbad : p.expected.pcs = [] ∨
      ∃ k, p.expected.K = some k ∧ p.expected.pcs.length < k) :
    (stepWorker st (WorkerEvent.setExpected p)).1.expected = some p.expected ∧
    (stepWorker st (WorkerEvent.setExpected p)).1.confirmCounter = 0 ∧
    (stepWorker st (WorkerEvent.setExpected p)).2.emits = [] :=
  ⟨rfl, rfl, rfl⟩

/-- Witness for the amended C8 at the concrete invalid payload
(empty pcs, `K = 5`). -/
theorem set_expected_no_validation_witness :
    (stepWorker confirmState (WorkerEvent.setExpected badPayload)).1.expected =
        some badPayload.expected ∧
    (stepWorker confirmState (WorkerEvent.setExpected badPayload)).1.confirmCounter = 0 ∧
    (stepWorker confirmState (WorkerEvent.setExpected badPayload)).2.emits = [] :=
  set_expected_no_validation confirmState badPayload (Or.inl rfl)

/-- C8 counterexample.  A SET_EXPECTED carrying an empty-pcs spec is not
rejected and does change state: the expected chord becomes the invalid
spec and the confirmation counter, previously 2, is reset to 0. -/
theorem set_expected_rejection_counterexample :
    badPayload.expected.pcs = [] ∧
    confirmState.confirmCounter = 2 ∧
    (stepWorker confirmState (WorkerEvent.setExpected badPayload)).1.expected =
        some ⟨[], some 5⟩ ∧
    (stepWorker confirmState (WorkerEvent.setExpected badPayload)).1.confirmCounter = 0 ∧
    (stepWorker confirmState (WorkerEvent.setExpected badPayload)).1 ≠ confirmState := by
  refine ⟨rfl, rfl, rfl, rfl, fun h => ?_⟩
  have h2 := congrArg WorkerState.confirmCounter h
  simp [stepWorker, handleSetExpected, confirmState, initWorkerState] at h2

/-! ## Theorems: session traces -/

theorem runWorker_length (st : WorkerState) (es : List WorkerEvent) :
    (runWorker st es).length = es.length := by
  induction es generalizing st with
  | nil => rfl
  | cons e rest ih => simp [runWorker, ih]

/-- C9.  While no SET_EXPECTED has arrived, every tick returns before
posting anything: no TICK, NOTES, CHORD_MATCH or CHORD_MISS verdict is
emitted, however many ticks fire. -/
theorem no_verdicts_before_set_expected (es : List WorkerEvent)
    (h : ∀ e ∈ es, e.isSetExpected = false) :
    ∀ r ∈ runWorker initWorkerState es, r.emits = [] := by
  have key : ∀ (es : List WorkerEvent) (st : WorkerState), st.expected = none →
      (∀ e ∈ es, e.isSetExpected = false) →
      ∀ r ∈ runWorker st es, r.emits = [] := by
    intro es
    induction es with
    | nil => intro st _ _ r hr; simp [runWorker] at hr
    | cons e rest ih =>
        intro st hnone hall r hr
        cases e with
        | setExpected p =>
            exact absurd (hall _ (List.mem_cons_self _ _)) (by simp [WorkerEvent.isSetExpected])
        | tick notes t1 t2 t3 =>
            have hstep : stepWorker st (WorkerEvent.tick notes t1 t2 t3) =
                (st, ⟨WorkerEvent.tick notes t1 t2 t3, st, [], none⟩) := by
              simp [stepWorker, processTick, hnone]
            rw [runWorker, hstep] at hr
            rcases List.mem_cons.mp hr with hre | hrt
            · rw [hre]
            · exact ih st hnone (fun e he => hall e (List.mem_cons_of_mem _ he)) r hrt
  exact key es initWorkerState rfl h

/-- Witness for C9: two silent ticks before any SET_EXPECTED emit
nothing. -/
theorem no_verdicts_before_set_expected_witness :
    ((runWorker initWorkerState c9Trace).getD 0 default).emits = [] ∧
    ((runWorker initWorkerState c9Trace).getD 1 default).emits = [] := by
  have hlen : (runWorker initWorkerState c9Trace).length = 2 := by
    rw [runWorker_length]; rfl
  constructor <;>
    exact no_verdicts_before_set_expected c9Trace (by decide) _
      (by rw [List.getD_eq_getElem _ _ (by rw [hlen]; decide)]; exact List.getElem_mem _)

/-- A step's record stores the event that produced it. -/
theorem stepWorker_event (st : WorkerState) (e : WorkerEvent) :
    (stepWorker st e).2.event = e := by
  cases e <;> rfl

/-- A step's record stores the state the event found. -/
theorem stepWorker_stPre (st : WorkerState) (e : WorkerEvent) :
    (stepWorker st e).2.stPre = st := by
  cases e <;> rfl

/-- How one step moves `lastMissTs`: a step that posts a CHORD_MISS found
the cooldown expired relative to its tick's `now` reading and records that
reading; any other step leaves `lastMissTs` alone. -/
theorem step_lastMissTs (st : WorkerState) (e : WorkerEvent) :
    (emitsMiss (stepWorker st e).2.emits = true →
      missCooldownMs < e.ts - st.lastMissTs ∧
        (stepWorker st e).1.lastMissTs = e.ts) ∧
    (emitsMiss (stepWorker st e).2.emits = false →
      (stepWorker st e).1.lastMissTs = st.lastMissTs) := by
  cases e with
  | setExpected p =>
      exact ⟨fun h => absurd h (by simp [stepWorker, emitsMiss]), fun _ => rfl⟩
  | tick notes t1 t2 t3 =>
      cases hexp : st.expected with
      | none =>
          refine ⟨fun h => absurd h ?_, fun _ => ?_⟩ <;>
            simp [stepWorker, processTick, hexp, emitsMiss]
      | some spec =>
          have hred : ∀ out : EvalOut,
              emitsMiss (Verdict.notes (t1 / 1000) notes :: out.emits ++
                [Verdict.tick (t3 / 1000) (t2 - t1)]) = emitsMiss out.emits := by
            intro out
            simp [emitsMiss]
          simp only [stepWorker, processTick, hexp, WorkerEvent.ts]
          rw [hred]
          generalize hrec : (if MAX_BUFFERED_TICKS < (st.recentEvents ++ [notes]).length
            then (st.recentEvents ++ [notes]).tail else st.recentEvents ++ [notes]) = recent
          set st2 := { st with recentEvents := recent } with hst2
          have hexp2 : st2.expected = some spec := hexp
          have hmiss2 : st2.lastMissTs = st.lastMissTs := rfl
          simp only [evaluateChord, hexp2]
          split
          · split
            · exact ⟨fun h => absurd h (by simp [emitsMiss]), fun _ => rfl⟩
            · exact ⟨fun h => absurd h (by simp [emitsMiss]), fun _ => rfl⟩
          · split
            · next hcool =>
                exact ⟨fun _ => ⟨by rw [← hmiss2]; exact hcool, rfl⟩,
                  fun h => absurd h (by simp [emitsMiss])⟩
            · exact ⟨fun h => absurd h (by simp [emitsMiss]), fun _ => rfl⟩

/-- Along any run from a state with non-negative `lastMissTs`, every
CHORD_MISS happens strictly later than `missCooldownMs` after the time
origin. -/
theorem miss_ts_above_cooldown (es : List WorkerEvent) (st : WorkerState)
    (h0 : 0 ≤ st.lastMissTs) :
    ∀ r ∈ runWorker st es, emitsMiss r.emits = true → missCooldownMs < r.event.ts := by
  induction es generalizing st with
  | nil => intro r hr; simp [runWorker] at hr
  | cons e rest ih =>
      intro r hr hm
      rw [runWorker] at hr
      rcases List.mem_cons.mp hr with hre | hrt
      · subst hre
        have hev : (stepWorker st e).2.event = e := by
          cases e <;> rfl
        rw [hev]
        have := (step_lastMissTs st e).1 hm
        have hcool := this.1
        rw [missCooldownMs] at hcool ⊢
        linarith
      · have h0' : 0 ≤ (stepWorker st e).1.lastMissTs := by
          cases hm2 : emitsMiss (stepWorker st e).2.emits with
          | false => rw [(step_lastMissTs st e).2 hm2]; exact h0
          | true =>
              obtain ⟨hgt, heq⟩ := (step_lastMissTs st e).1 hm2
              rw [heq]
              rw [missCooldownMs] at hgt
              linarith
        exact ih (stepWorker st e).1 h0' r hrt hm

/-- C10.  Because `lastMissTs` starts at 0, no tick whose wall-clock
reading is within `missCooldownMs` of the worker's time origin ever posts
a CHORD_MISS. -/
theorem no_early_miss (es : List WorkerEvent) (r : StepRecord)
    (hr : r ∈ runWorker initWorkerState es) (hts : r.event.ts ≤ missCooldownMs) :
    emitsMiss r.emits = false := by
  cases hm : emitsMiss r.emits with
  | false => rfl
  | true =>
      have := miss_ts_above_cooldown es initWorkerState le_rfl r hr hm
      exact absurd hts (by linarith)

/-- The first CHORD_MISS of a run happens strictly more than the cooldown
after the `lastMissTs` the run started with. -/
theorem run_first_miss_gap (es : List WorkerEvent) (st : WorkerState)
    (rs1 rs2 : List StepRecord) (r : StepRecord)
    (hrun : runWorker st es = rs1 ++ r :: rs2) (hm : emitsMiss r.emits = true)
    (hfirst : ∀ r2 ∈ rs1, emitsMiss r2.emits = false) :
    missCooldownMs < r.event.ts - st.lastMissTs := by
  induction es generalizing st rs1 with
  | nil => cases rs1 <;> simp [runWorker] at hrun
  | cons e rest ih =>
      rw [runWorker] at hrun
      cases rs1 with
      | nil =>
          simp only [List.nil_append, List.cons.injEq] at hrun
          have h := (step_lastMissTs st e).1 (by rw [hrun.1]; exact hm)
          rw [← hrun.1, stepWorker_event]
          exact h.1
      | cons r0 rs1' =>
          simp only [List.cons_append, List.cons.injEq] at hrun
          have h0 : emitsMiss (stepWorker st e).2.emits = false := by
            rw [hrun.1]; exact hfirst r0 (List.mem_cons_self _ _)
          have hkeep := (step_lastMissTs st e).2 h0
          rw [← hkeep]
          exact ih (stepWorker st e).1 rs1' hrun.2
            (fun r2 h2 => hfirst r2 (List.mem_cons_of_mem _ h2))

/-- Right after a CHORD_MISS, the rest of the run starts from a state whose
`lastMissTs` is that miss's tick reading. -/
theorem run_after_miss (es : List WorkerEvent) (st : WorkerState)
    (rs1 rs2 : List StepRecord) (r : StepRecord)
    (hrun : runWorker st es = rs1 ++ r :: rs2) (hm : emitsMiss r.emits = true) :
    ∃ (es2 : List WorkerEvent) (st2 : WorkerState),
      runWorker st2 es2 = rs2 ∧ st2.lastMissTs = r.event.ts := by
  induction es generalizing st rs1 with
  | nil => cases rs1 <;> simp [runWorker] at hrun
  | cons e rest ih =>
      rw [runWorker] at hrun
      cases rs1 with
      | nil =>
          simp only [List.nil_append, List.cons.injEq] at hrun
          refine ⟨rest, (stepWorker st e).1, hrun.2, ?_⟩
          have h := (step_lastMissTs st e).1 (by rw [hrun.1]; exact hm)
          rw [← hrun.1, stepWorker_event]
          exact h.2
      | cons r0 rs1' =>
          simp only [List.cons_append, List.cons.injEq] at hrun
          exact ih (stepWorker st e).1 rs1' hrun.2

/-- C2.  Between two consecutive CHORD_MISS verdicts of a session at least
`missCooldownMs` elapses (the source requires strictly more than the
cooldown before re-emitting). -/
theorem consecutive_miss_gap (es : List WorkerEvent)
    (rs1 rs2 rs3 : List StepRecord) (r1 r2 : StepRecord)
    (hrun : runWorker initWorkerState es = rs1 ++ r1 :: (rs2 ++ r2 :: rs3))
    (h1 : emitsMiss r1.emits = true) (h2 : emitsMiss r2.emits = true)
    (hbet : ∀ r ∈ rs2, emitsMiss r.emits = false) :
    missCooldownMs ≤ r2.event.ts - r1.event.ts := by
  obtain ⟨es2, st2, hrun2, hts⟩ := run_after_miss es initWorkerState rs1 _ r1 hrun h1
  have hgap := run_first_miss_gap es2 st2 rs2 rs3 r2 hrun2 h2 hbet
  rw [hts] at hgap
  linarith

/-- Witness for C2 on the concrete session `c2Trace`: misses fire at the
300 ms and 600 ms ticks, the 400 ms tick is debounced, and the two misses
are 300 ms ≥ `missCooldownMs` apart. -/
theorem consecutive_miss_gap_witness :
    missCooldownMs ≤
      (stepWorker
        (stepWorker
          (stepWorker
            (stepWorker initWorkerState (WorkerEvent.setExpected passPayload)).1
            (WorkerEvent.tick [] 300 300 300)).1
          (WorkerEvent.tick [] 400 400 400)).1
        (WorkerEvent.tick [] 600 600 600)).2.event.ts -
      (stepWorker
        (stepWorker initWorkerState (WorkerEvent.setExpected passPayload)).1
        (WorkerEvent.tick [] 300 300 300)).2.event.ts := by
  have h1 : emitsMiss (stepWorker
      (stepWorker initWorkerState (WorkerEvent.setExpected passPayload)).1
      (WorkerEvent.tick [] 300 300 300)).2.emits = true := by
    norm_num [stepWorker, processTick, handleSetExpected, passPayload, initWorkerState,
      evaluateChord, aggregateRecentNotes, aggUpdate, noteScan, scanStep, matchedOf,
      missingOf, policyPasses, requiredK, applyInversionGate, missCooldownMs,
      MAX_BUFFERED_TICKS, emitsMiss, mapCentsTolToSalience]
  have h2 : emitsMiss (stepWorker
      (stepWorker
        (stepWorker
          (stepWorker initWorkerState (WorkerEvent.setExpected passPayload)).1
          (WorkerEvent.tick [] 300 300 300)).1
        (WorkerEvent.tick [] 400 400 400)).1
      (WorkerEvent.tick [] 600 600 600)).2.emits = true := by
    norm_num [stepWorker, processTick, handleSetExpected, passPayload, initWorkerState,
      evaluateChord, aggregateRecentNotes, aggUpdate, noteScan, scanStep, matchedOf,
      missingOf, policyPasses, requiredK, applyInversionGate, missCooldownMs,
      MAX_BUFFERED_TICKS, emitsMiss, mapCentsTolToSalience]
  have hdeb : emitsMiss (stepWorker
      (stepWorker
        (stepWorker initWorkerState (WorkerEvent.setExpected passPayload)).1
        (WorkerEvent.tick [] 300 300 300)).1
      (WorkerEvent.tick [] 400 400 400)).2.emits = false := by
    norm_num [stepWorker, processTick, handleSetExpected, passPayload, initWorkerState,
      evaluateChord, aggregateRecentNotes, aggUpdate, noteScan, scanStep, matchedOf,
      missingOf, policyPasses, requiredK, applyInversionGate, missCooldownMs,
      MAX_BUFFERED_TICKS, emitsMiss, mapCentsTolToSalience]
  exact consecutive_miss_gap c2Trace
    [(stepWorker initWorkerState (WorkerEvent.setExpected passPayload)).2]
    [(stepWorker
        (stepWorker
          (stepWorker initWorkerState (WorkerEvent.setExpected passPayload)).1
          (WorkerEvent.tick [] 300 300 300)).1
        (WorkerEvent.tick [] 400 400 400)).2]
    [] _ _ rfl h1 h2
    (fun r hr => by rw [List.mem_singleton.mp hr]; exact hdeb)

/-- Witness for C10: the silent tick 100 ms after the time origin emits no
CHORD_MISS even though it does not pass. -/
theorem no_early_miss_witness :
    emitsMiss ((runWorker initWorkerState c10Trace).getD 1 default).emits = false := by
  have h1 : (runWorker initWorkerState c10Trace).getD 1 default =
      (stepWorker (stepWorker initWorkerState (WorkerEvent.setExpected passPayload)).1
        (WorkerEvent.tick [] 100 100 100)).2 := rfl
  have hlen : 1 < (runWorker initWorkerState c10Trace).length := by
    rw [runWorker_length]; decide
  have hmem : (runWorker initWorkerState c10Trace).getD 1 default ∈
      runWorker initWorkerState c10Trace := by
    rw [List.getD_eq_getElem _ _ hlen]
    exact List.getElem_mem _
  refine no_early_miss c10Trace _ hmem ?_
  rw [h1, stepWorker_event, missCooldownMs]
  norm_num [WorkerEvent.ts]

/-! ## Theorems: confirmation counting (C1) -/

/-- How a tick with an expected chord moves the confirmation counter: on a
pass the counter increments, a CHORD_MATCH fires exactly when it reaches
framesConfirm and then resets to 0; on a failure the counter resets and no
match fires.  framesConfirm and the expected chord are untouched. -/
theorem step_tick_char (st : WorkerState) (spec : ChordSpec) (notes : List NoteEvent)
    (t1 t2 t3 : ℚ) (hexp : st.expected = some spec) :
    (stepWorker st (WorkerEvent.tick notes t1 t2 t3)).2.pass ≠ none ∧
    (stepWorker st (WorkerEvent.tick notes t1 t2 t3)).1.framesConfirm =
      st.framesConfirm ∧
    (stepWorker st (WorkerEvent.tick notes t1 t2 t3)).1.expected = st.expected ∧
    ((stepWorker st (WorkerEvent.tick notes t1 t2 t3)).2.pass = some true →
      emitsMatch (stepWorker st (WorkerEvent.tick notes t1 t2 t3)).2.emits =
        decide (st.framesConfirm ≤ st.confirmCounter + 1) ∧
      (stepWorker st (WorkerEvent.tick notes t1 t2 t3)).1.confirmCounter =
        (if st.framesConfirm ≤ st.confirmCounter + 1 then 0
         else st.confirmCounter + 1)) ∧
    ((stepWorker st (WorkerEvent.tick notes t1 t2 t3)).2.pass = some false →
      emitsMatch (stepWorker st (WorkerEvent.tick notes t1 t2 t3)).2.emits = false ∧
      (stepWorker st (WorkerEvent.tick notes t1 t2 t3)).1.confirmCounter = 0) := by
  have hredM : ∀ out : EvalOut,
      emitsMatch (Verdict.notes (t1 / 1000) notes :: out.emits ++
        [Verdict.tick (t3 / 1000) (t2 - t1)]) = emitsMatch out.emits := by
    intro out
    simp [emitsMatch]
  simp only [stepWorker, processTick, hexp]
  rw [hredM]
  generalize (if MAX_BUFFERED_TICKS < (st.recentEvents ++ [notes]).length
    then (st.recentEvents ++ [notes]).tail else st.recentEvents ++ [notes]) = recent
  have hexp2 : ({ st with recentEvents := recent } : WorkerState).expected = some spec :=
    hexp
  simp only [evaluateChord, hexp2]
  split
  · next hpass =>
      split
      · next hfc =>
          refine ⟨by simp, rfl, rfl, fun _ => ⟨?_, ?_⟩, fun h => by simp [hpass] at h⟩
          · simp only [emitsMatch, List.any_cons, List.any_nil]
            simp [hfc]
          · simp [if_pos hfc]
      · next hfc =>
          refine ⟨by simp, rfl, rfl, fun _ => ⟨?_, ?_⟩, fun h => by simp [hpass] at h⟩
          · simp only [emitsMatch, List.any_nil]
            simp [hfc]
          · simp [if_neg hfc]
  · next hpass =>
      have hpf : applyInversionGate
          ({ st with recentEvents := recent } : WorkerState).acceptInversions spec
          (noteScan ({ st with recentEvents := recent } : WorkerState).salienceThreshold
            ({ st with recentEvents := recent } : WorkerState).transposeSemitones
            (aggregateRecentNotes recent))
          (policyPasses ({ st with recentEvents := recent } : WorkerState).policy spec
            (noteScan ({ st with recentEvents := recent } : WorkerState).salienceThreshold
              ({ st with recentEvents := recent } : WorkerState).transposeSemitones
              (aggregateRecentNotes recent))
            (matchedOf spec
              (noteScan ({ st with recentEvents := recent } : WorkerState).salienceThreshold
                ({ st with recentEvents := recent } : WorkerState).transposeSemitones
                (aggregateRecentNotes recent)).pcs)) = false := by
        revert hpass
        cases applyInversionGate _ _ _ _ <;> simp
      split
      · refine ⟨by simp, rfl, rfl, fun h => ?_, fun _ => ⟨?_, rfl⟩⟩
        · rw [hpf] at h; simp at h
        · simp [emitsMatch]
      · refine ⟨by simp, rfl, rfl, fun h => ?_, fun _ => ⟨?_, rfl⟩⟩
        · rw [hpf] at h; simp at h
        · simp [emitsMatch]

/-- The counter arithmetic behind the confirmation cycle: with
`counter = s % fc` before a passing tick, the threshold is reached exactly
when `s + 1` is a multiple of `fc`, and the updated counter is
`(s + 1) % fc` either way. -/
theorem succ_mod_confirm (s fc : ℕ) (h : 1 ≤ fc) :
    ((fc ≤ s % fc + 1) ↔ (s + 1) % fc = 0) ∧
    ((if fc ≤ s % fc + 1 then 0 else s % fc + 1) = (s + 1) % fc) := by
  rcases Nat.eq_or_lt_of_le h with h1 | h2
  · rw [← h1]
    simp [Nat.mod_one]
  · have hmod : (s + 1) % fc = (s % fc + 1) % fc := by
      conv_lhs => rw [Nat.add_mod, Nat.mod_eq_of_lt h2]
    have hlt : s % fc < fc := Nat.mod_lt _ (by omega)
    by_cases hc : s % fc + 1 = fc
    · rw [hmod, hc, Nat.mod_self]
      constructor
      · exact ⟨fun _ => rfl, fun _ => by omega⟩
      · rw [if_pos (by omega)]
    · have hsm : (s + 1) % fc = s % fc + 1 := by
        rw [hmod, Nat.mod_eq_of_lt (by omega)]
      constructor
      · rw [hsm]
        constructor
        · intro hle; omega
        · intro h0; omega
      · rw [if_neg (by omega), hsm]

/-- The confirmation invariant, generalized: from any state whose counter
is `s % framesConfirm` (where `s` is the pass streak so far), a
CHORD_MATCH fires at position `i` exactly when the streak there is a
positive multiple of the framesConfirm in force at that tick. -/
theorem match_iff_streak_aux (es : List WorkerEvent) :
    ∀ (st : WorkerState) (s : ℕ),
      st.confirmCounter = s % st.framesConfirm →
      1 ≤ st.framesConfirm →
      (st.expected = none → s = 0) →
      (∀ e ∈ es, eventFcOk e = true) →
      ∀ i, i < es.length →
        (emitsMatch ((runWorker st es).getD i default).emits = true ↔
          (0 < (streaks st s es).getD i 0 ∧
            (streaks st s es).getD i 0 %
              ((runWorker st es).getD i default).stPre.framesConfirm = 0)) := by
  induction es with
  | nil => intro st s _ _ _ _ i hi; simp at hi
  | cons e rest ih =>
      intro st s hctr hfc1 hnone hfc i hi
      simp only [runWorker, streaks]
      cases i with
      | zero =>
          simp only [List.getD_cons_zero, stepWorker_stPre]
          cases e with
          | setExpected p =>
              simp [stepWorker, streakStep, emitsMatch]
          | tick notes t1 t2 t3 =>
              cases hexp : st.expected with
              | none =>
                  have hstep : stepWorker st (WorkerEvent.tick notes t1 t2 t3) =
                      (st, ⟨WorkerEvent.tick notes t1 t2 t3, st, [], none⟩) := by
                    simp [stepWorker, processTick, hexp]
                  rw [hstep]
                  simp [streakStep, emitsMatch, hnone hexp]
              | some spec =>
                  obtain ⟨hpn, hfceq, hexpeq, htrue, hfalse⟩ :=
                    step_tick_char st spec notes t1 t2 t3 hexp
                  cases hp : (stepWorker st (WorkerEvent.tick notes t1 t2 t3)).2.pass with
                  | none => exact absurd hp hpn
                  | some b =>
                      have hss : streakStep s
                          (stepWorker st (WorkerEvent.tick notes t1 t2 t3)).2 =
                          (if b then s + 1 else 0) := by
                        simp [streakStep, stepWorker_event, hp]
                        cases b <;> rfl
                      rw [hss]
                      cases b with
                      | true =>
                          obtain ⟨hem, _⟩ := htrue hp
                          rw [hem, hctr]
                          rw [if_pos rfl]
                          have harith := (succ_mod_confirm s st.framesConfirm hfc1).1
                          simp only [decide_eq_true_eq]
                          constructor
                          · intro h; exact ⟨Nat.succ_pos _, harith.mp h⟩
                          · intro h; exact harith.mpr h.2
                      | false =>
                          obtain ⟨hem, _⟩ := hfalse hp
                          rw [hem]
                          simp
      | succ j =>
          simp only [List.getD_cons_succ]
          have hj : j < rest.length := by simpa using hi
          have hfcr : ∀ e2 ∈ rest, eventFcOk e2 = true :=
            fun e2 he2 => hfc e2 (List.mem_cons_of_mem _ he2)
          cases e with
          | setExpected p =>
              have hfcp : 1 ≤ p.framesConfirm := by
                have := hfc _ (List.mem_cons_self _ _)
                simpa [eventFcOk] using this
              have hs2 : streakStep s
                  (stepWorker st (WorkerEvent.setExpected p)).2 = 0 := rfl
              rw [hs2]
              exact ih (stepWorker st (WorkerEvent.setExpected p)).1 0
                (by simp [stepWorker, handleSetExpected])
                (by simpa [stepWorker, handleSetExpected] using hfcp)
                (fun h => rfl)
                hfcr j hj
          | tick notes t1 t2 t3 =>
              cases hexp : st.expected with
              | none =>
                  have hstep : stepWorker st (WorkerEvent.tick notes t1 t2 t3) =
                      (st, ⟨WorkerEvent.tick notes t1 t2 t3, st, [], none⟩) := by
                    simp [stepWorker, processTick, hexp]
                  rw [hstep]
                  have hs2 : streakStep s
                      (⟨WorkerEvent.tick notes t1 t2 t3, st, [], none⟩ : StepRecord) =
                      s := rfl
                  rw [hs2]
                  exact ih st s hctr hfc1 hnone hfcr j hj
              | some spec =>
                  obtain ⟨hpn, hfceq, hexpeq, htrue, hfalse⟩ :=
                    step_tick_char st spec notes t1 t2 t3 hexp
                  cases hp : (stepWorker st (WorkerEvent.tick notes t1 t2 t3)).2.pass with
                  | none => exact absurd hp hpn
                  | some b =>
                      have hss : streakStep s
                          (stepWorker st (WorkerEvent.tick notes t1 t2 t3)).2 =
                          (if b then s + 1 else 0) := by
                        simp [streakStep, stepWorker_event, hp]
                        cases b <;> rfl
                      rw [hss]
                      have hnone2 : (stepWorker st
                          (WorkerEvent.tick notes t1 t2 t3)).1.expected = none → False := by
                        intro h
                        rw [hexpeq, hexp] at h
                        simp at h
                      cases b with
                      | true =>
                          obtain ⟨_, hctr2⟩ := htrue hp
                          rw [if_pos rfl]
                          refine ih _ (s + 1) ?_ (by rw [hfceq]; exact hfc1)
                            (fun h => absurd h (fun h2 => hnone2 h2)) hfcr j hj
                          rw [hctr2, hctr, hfceq]
                          exact (succ_mod_confirm s st.framesConfirm hfc1).2
                      | false =>
                          obtain ⟨_, hctr2⟩ := hfalse hp
                          rw [if_neg (by simp)]
                          refine ih _ 0 ?_ (by rw [hfceq]; exact hfc1)
                            (fun h => absurd h (fun h2 => hnone2 h2)) hfcr j hj
                          rw [hctr2]
                          simp

/-- C1 (amended).  In any session whose SET_EXPECTED messages carry a
positive framesConfirm, a CHORD_MATCH is emitted at position `i` iff the
streak of consecutive policy-passing ticks ending there (counted since the
most recent SET_EXPECTED or non-passing tick) is a positive multiple of
the framesConfirm in force at that tick.  In particular every match is
preceded by framesConfirm consecutive passes with no SET_EXPECTED in
between, the counter reset after a match gives at most one match per
framesConfirm consecutive passes, and a tick whose streak is not a
multiple of framesConfirm emits no match even when it and the
framesConfirm − 1 preceding ticks all passed. -/
theorem match_iff_streak (es : List WorkerEvent)
    (hfc : ∀ e ∈ es, eventFcOk e = true) (i : ℕ) (hi : i < es.length) :
    (emitsMatch ((runWorker initWorkerState es).getD i default).emits = true ↔
      (0 < (streaks initWorkerState 0 es).getD i 0 ∧
        (streaks initWorkerState 0 es).getD i 0 %
          ((runWorker initWorkerState es).getD i default).stPre.framesConfirm = 0)) :=
  match_iff_streak_aux es initWorkerState 0 rfl (by decide) (fun _ => rfl) hfc i hi

/-- Witness for the amended C1: in the session `c1Trace` (framesConfirm 3,
four consecutive passing ticks), the match condition at position 3 is the
streak-multiple condition. -/
theorem match_iff_streak_witness :
    (emitsMatch ((runWorker initWorkerState c1Trace).getD 3 default).emits = true ↔
      (0 < (streaks initWorkerState 0 c1Trace).getD 3 0 ∧
        (streaks initWorkerState 0 c1Trace).getD 3 0 %
          ((runWorker initWorkerState c1Trace).getD 3 default).stPre.framesConfirm = 0)) :=
  match_iff_streak c1Trace (by decide) 3 (by decide)

/-- C1 counterexample.  In `c1Trace` the ticks at positions 2, 3 and 4 all
pass the policy check with no SET_EXPECTED in between and framesConfirm
is 3, yet no CHORD_MATCH is emitted at position 4 (the counter was reset
by the match at position 3): the claimed `if and only if` fails in the
`if` direction. -/
theorem match_iff_window_counterexample :
    (∀ e ∈ c1Trace.drop 1, e.isSetExpected = false) ∧
    ((runWorker initWorkerState c1Trace).getD 4 default).stPre.framesConfirm = 3 ∧
    ((runWorker initWorkerState c1Trace).map fun r => (r.pass, emitsMatch r.emits)) =
      [(none, false), (some true, false), (some true, false), (some true, true),
        (some true, false)] := by
  have h60 : midiToPitchClass 60 0 = 0 := by decide
  refine ⟨by decide, ?_, ?_⟩ <;>
    norm_num [c1Trace, runWorker, stepWorker, processTick, handleSetExpected,
      passPayload, passNote, initWorkerState, evaluateChord, aggregateRecentNotes,
      aggUpdate, noteScan, scanStep, matchedOf, missingOf, policyPasses, requiredK,
      applyInversionGate, missCooldownMs, MAX_BUFFERED_TICKS, emitsMatch,
      mapCentsTolToSalience, h60]

end Raziel
